import Mathlib

/-!
Shallow embedding of `mov_avg_filters.py` (moving-average filters over numeric
series). Samples are modelled as `Option ℚ`: `none` plays the role of the NaN
missing-value marker, `some q` is an ordinary sample. Floating-point numbers
are modelled as exact rationals, so "equal up to floating-point rounding
tolerance" in the specification becomes exact equality here.
-/

set_option linter.unusedVariables false

/-- Python slice `l[a:b]` with integer bounds: a negative bound counts from the
end of the list, and both bounds are clamped to `[0, len l]`. -/
def pySlice {α : Type} (l : List α) (a b : ℤ) : List α :=
  let n : ℤ := l.length
  let a2 : ℕ := (if a < 0 then max (n + a) 0 else min a n).toNat
  let b2 : ℕ := (if b < 0 then max (n + b) 0 else min b n).toNat
  (l.take b2).drop a2

/-- `np.nanmean` over a list of samples: the arithmetic mean of the non-missing
values, `none` (NaN) when every value is missing (including the empty list,
where numpy warns and returns NaN). -/
def nanmean (l : List (Option ℚ)) : Option ℚ :=
  let vals := l.filterMap id
  if vals.length = 0 then none else some (vals.sum / (vals.length : ℚ))

/-- Body of the loop in `mov_avg_loop` (line 100 of the source), also reused
verbatim by the two boundary-refix loops of `mov_avg_no_nan` (lines 163, 166):
`np.nanmean(y[np.maximum(i-samples_before,0):np.minimum(i+samples_after,len(y))+1])`. -/
def exactAt (y : List (Option ℚ)) (sb sa : ℤ) (i : ℕ) : Option ℚ :=
  nanmean (pySlice y (max ((i : ℤ) - sb) 0) (min ((i : ℤ) + sa) (y.length : ℤ) + 1))

/-- `mov_avg_loop`: resolves the `-1` sentinel for `samples_after` to
`samples_before`, then computes the clipped window nanmean at every index. -/
def mov_avg_loop (y : List (Option ℚ)) (samples_before samples_after : ℤ) :
    List (Option ℚ) :=
  let sa := if samples_after = -1 then samples_before else samples_after
  (List.range y.length).map (exactAt y samples_before sa)

/-- Index of the `reflect`-mode edge extension used by
`scipy.ndimage.uniform_filter1d`: the array is extended as
`(d c b a | a b c d | d c b a)`, i.e. reflection about the edges with the edge
sample duplicated, which is periodic with period `2 n`. -/
def reflectIdx (n : ℕ) (t : ℤ) : ℕ :=
  let m := t % (2 * (n : ℤ))
  if m < (n : ℤ) then m.toNat else (2 * (n : ℤ) - 1 - m).toNat

/-- `scipy.ndimage.uniform_filter1d(y, size, origin = 0, mode = 'reflect')`:
at every index `i` the mean of the `size` extended samples starting at
`i - size // 2`. A window touching a NaN (here `none`) produces NaN. Faithful
to the source for `size ≥ 1` (scipy rejects non-positive sizes, a regime no
claim exercises). -/
def uniform_filter1d (y : List (Option ℚ)) (size : ℤ) : List (Option ℚ) :=
  (List.range y.length).map (fun (i : ℕ) =>
    let win := (List.range size.toNat).map (fun (k : ℕ) =>
      y.getD (reflectIdx y.length ((i : ℤ) - size.fdiv 2 + (k : ℤ))) none)
    if win.all Option.isSome then
      some ((win.filterMap id).sum / (size.toNat : ℚ))
    else none)

/-- `mov_avg_no_nan`: box filter of width `samples_before + samples_after + 1`,
realigned by `shift = ceil((samples_after - samples_before) / 2)` (numpy's
overlapping slice assignment buffers the source, so the shift behaves as a
plain copy), the vacated entries filled with NaN, and the first
`samples_before + |shift|` and last `samples_after + |shift|` entries recomputed
with the exact clipped-window formula. -/
def mov_avg_no_nan (y : List (Option ℚ)) (samples_before samples_after : ℤ) :
    List (Option ℚ) :=
  let sb := samples_before
  let sa := if samples_after = -1 then sb else samples_after
  let n : ℤ := y.length
  let size : ℤ := sb + sa + 1
  let u := uniform_filter1d y size
  let shift : ℤ := (sa - sb + 1).fdiv 2
  let sh : ℕ := shift.natAbs
  let shifted : ℕ → Option ℚ := fun i =>
    if 0 < shift then
      if (i : ℤ) < n - shift then u.getD (i + shift.toNat) none else none
    else if shift < 0 then
      if i < sh then none else u.getD (i - sh) none
    else u.getD i none
  (List.range y.length).map (fun (i : ℕ) =>
    if (i : ℤ) < min (sb + (sh : ℤ)) n ∨ max 0 (n - sa - (sh : ℤ) - 1) < (i : ℤ) then
      exactAt y sb sa i
    else shifted i)

/-- The dispatcher's test `np.isnan(y).any` (source line 53) is missing the
call parentheses: it evaluates the bound method object itself, which is always
truthy in Python, whatever `y` contains. -/
def isnanAnyUncalled (y : List (Option ℚ)) : Bool := true

/-- `mov_avg`: the dispatcher. Note that both call sites in the source pass the
keyword `samples_after = -1` literally, discarding the caller's value. -/
def mov_avg (y : List (Option ℚ)) (samples_before samples_after : ℤ) :
    List (Option ℚ) :=
  if isnanAnyUncalled y then mov_avg_loop y samples_before (-1)
  else mov_avg_no_nan y samples_before (-1)

/-- Python `int(q)`: truncation toward zero. -/
def pyInt (q : ℚ) : ℤ :=
  if 0 ≤ q.num then q.num.fdiv q.den else -((-q.num).fdiv q.den)

/-- `mov_avg_time`: converts the time window to sample counts by truncation and
delegates to the dispatcher. The source performs no validation of `freq`,
`time_units_before` or `time_units_after`. -/
def mov_avg_time (y : List (Option ℚ)) (freq tu_before tu_after : ℚ) :
    List (Option ℚ) :=
  let samples_before := pyInt (tu_before * freq)
  let samples_after := if tu_after = -1 then (-1 : ℤ) else pyInt (tu_after * freq)
  mov_avg y samples_before samples_after

/-- Argument shape accepted by `mov_avg_time_variable_freq`: either a single
series (a flat sequence of scalars) or a batch of series. -/
inductive PyIn : Type where
  | single : List (Option ℚ) → PyIn
  | batch : List (List (Option ℚ)) → PyIn

/-- Result shape of `mov_avg_time_variable_freq` after the final `np.squeeze`:
a rank-0 scalar, a rank-1 series, or a rank-2 batch. -/
inductive PyOut : Type where
  | scalar : Option ℚ → PyOut
  | arr1 : List (Option ℚ) → PyOut
  | arr2 : List (List (Option ℚ)) → PyOut
deriving DecidableEq

/-- Python `len()` applied to a `PyOut`: `len` of a 0-dimensional numpy array
raises `TypeError`; `len` of a 2-dimensional array is its number of rows. -/
def pyOutLen : PyOut → Except String ℕ
  | .scalar _ => .error "TypeError"
  | .arr1 l => .ok l.length
  | .arr2 m => .ok m.length

/-- `containsScalars`: reads `iterable[0]` unconditionally (an `IndexError` on
an empty argument) and reports whether that first element is a scalar. -/
def containsScalars : PyIn → Except String Bool
  | .single l => if l.isEmpty then .error "IndexError" else .ok true
  | .batch l => if l.isEmpty then .error "IndexError" else .ok false

/-- Column `i` of the filtered batch in `mov_avg_time_variable_freq`: the
indices `j` whose timestamp survives both NaN assignments, i.e. with
`x[i] - tb ≤ x[j] ≤ x[i] + ta` (written as the negations of the two strict
comparisons used by the source). -/
def timeWindowIdxs (x : List ℚ) (tb ta : ℚ) (i : ℕ) : List ℕ :=
  let t := x.getD i 0
  (List.range x.length).filter (fun j =>
    !(decide (x.getD j 0 < t - tb)) && !(decide (t + ta < x.getD j 0)))

/-- The filtered array of `mov_avg_time_variable_freq`: a copy of the input
batch whose columns `i < len x` are overwritten by the per-series nanmean over
the timestamp window; columns beyond `len x` (possible only when the series are
longer than `x`) keep their original values, as in the source loop. -/
def tvfFilt (x : List ℚ) (yss : List (List (Option ℚ))) (tb ta : ℚ) :
    List (List (Option ℚ)) :=
  yss.map (fun ys => (List.range ys.length).map (fun (i : ℕ) =>
    if i < x.length then
      nanmean ((timeWindowIdxs x tb ta i).map (fun j => ys.getD j none))
    else ys.getD i none))

/-- `np.squeeze` applied to the single-series result of shape `(1, m)`: every
unit axis is removed, so `m = 1` collapses to a rank-0 scalar and any other `m`
gives a rank-1 series of length `m`. -/
def squeeze1 (l : List (Option ℚ)) : PyOut :=
  match l with
  | [v] => .scalar v
  | l => .arr1 l

/-- `mov_avg_time_variable_freq`: shape dispatch via `containsScalars` (adding
a batch dimension around a single series), sentinel resolution for
`time_units_after`, the per-timestamp window means, and for the single-series
case a final `np.squeeze` that removes every unit axis — collapsing a `(1, 1)`
result to a rank-0 scalar. A ragged batch fails at `np.array(...).astype`
(`ValueError`); series shorter than `x` fail at the column assignment
(`IndexError`). -/
def mov_avg_time_variable_freq (x : List ℚ) (inp : PyIn) (tu_before tu_after : ℚ) :
    Except String PyOut :=
  match containsScalars inp with
  | .error e => .error e
  | .ok oneArrayFlag =>
    let yss := match inp with
      | .single ys => [ys]
      | .batch l => l
    let ta := if tu_after = -1 then tu_before else tu_after
    if yss.all (fun ys => ys.length == (yss.headD []).length) then
      if (yss.headD []).length < x.length then .error "IndexError"
      else
        let filt := tvfFilt x yss tu_before ta
        if oneArrayFlag then .ok (squeeze1 (filt.headD []))
        else .ok (.arr2 filt)
    else .error "ValueError"

/-! Helper lemmas about lists, slices and means. -/

theorem getD_range_map {α : Type} (f : ℕ → α) (d : α) {n i : ℕ} (h : i < n) :
    ((List.range n).map f).getD i d = f i := by
  rw [List.getD_eq_getElem?_getD, List.getElem?_map]
  simp [List.getElem?_range, h]

theorem drop_take_eq_map_range {α : Type} (l : List α) (a b : ℕ) (d : α) :
    (l.take b).drop a
      = (List.range (min b l.length - a)).map (fun k => l.getD (a + k) d) := by
  apply List.ext_getElem
  · simp
  · intro i h1 h2
    have hlen : i < min b l.length - a := by simpa using h2
    have hai : a + i < l.length := by omega
    have hai2 : a + i < (l.take b).length := by simp; omega
    rw [List.getElem_drop, List.getElem_take]
    rw [List.getElem_map, List.getElem_range]
    rw [List.getD_eq_getElem?_getD, List.getElem?_eq_getElem hai]
    rfl

theorem pySlice_eq_range {α : Type} (l : List α) (a b : ℤ) (d : α)
    (ha : 0 ≤ a) (han : a ≤ (l.length : ℤ)) (hb : 0 ≤ b) :
    pySlice l a b
      = (List.range ((min b (l.length : ℤ)).toNat - a.toNat)).map
          (fun k => l.getD (a.toNat + k) d) := by
  simp only [pySlice]
  rw [if_neg (by omega), if_neg (by omega)]
  rw [drop_take_eq_map_range _ _ _ d]
  have h1 : (min a (l.length : ℤ)).toNat = a.toNat := by omega
  have h2 : min (min b (l.length : ℤ)).toNat l.length = (min b (l.length : ℤ)).toNat := by
    omega
  rw [h1, h2]

theorem filterMap_id_eq_map (l : List (Option ℚ)) (h : ∀ v ∈ l, v ≠ none) :
    l.filterMap id = l.map (fun o => o.getD 0) := by
  induction l with
  | nil => rfl
  | cons o t ih =>
    cases o with
    | none => exact absurd rfl (h none (List.mem_cons_self _ _))
    | some v =>
      have ht := ih (fun w hw => h w (List.mem_cons_of_mem _ hw))
      simp [List.filterMap_cons, ht]

theorem nanmean_all_some (l : List (Option ℚ)) (h : ∀ v ∈ l, v ≠ none)
    (hne : l.length ≠ 0) :
    nanmean l = some ((l.map (fun o => o.getD 0)).sum / (l.length : ℚ)) := by
  unfold nanmean
  rw [filterMap_id_eq_map l h]
  simp only [List.length_map]
  rw [if_neg hne]

theorem map_getD_range (l : List (Option ℚ)) :
    (List.range l.length).map (fun i => l.getD i none) = l := by
  apply List.ext_getElem
  · simp
  · intro i h1 h2
    rw [List.getElem_map, List.getElem_range]
    rw [List.getD_eq_getElem?_getD, List.getElem?_eq_getElem h2]
    rfl

/-- Claim C5: `moving_average(y, 0, 0)` is the identity on every series;
missing values pass through unchanged. -/
theorem c5_zero_window_identity (y : List (Option ℚ)) : mov_avg y 0 0 = y := by
  show mov_avg_loop y 0 (-1) = y
  show (List.range y.length).map (exactAt y 0 0) = y
  conv_rhs => rw [← map_getD_range y]
  apply List.map_congr_left
  intro i hi
  have hin : i < y.length := List.mem_range.mp hi
  unfold exactAt
  have hmax : max ((i : ℤ) - 0) 0 = (i : ℤ) := by omega
  have hmin : min ((i : ℤ) + 0) (y.length : ℤ) + 1 = (i : ℤ) + 1 := by omega
  rw [hmax, hmin]
  rw [pySlice_eq_range y (i : ℤ) ((i : ℤ) + 1) none (by omega) (by omega) (by omega)]
  have hcnt : (min ((i : ℤ) + 1) (y.length : ℤ)).toNat - (i : ℤ).toNat = 1 := by omega
  rw [hcnt]
  have : (List.range 1).map (fun k => y.getD ((i : ℤ).toNat + k) none)
      = [y.getD i none] := by
    simp [List.range_succ]
  rw [this]
  cases hv : y.getD i none with
  | none => rfl
  | some v => simp [nanmean]

theorem reflectIdx_of_mem (n : ℕ) (t : ℤ) (h0 : 0 ≤ t) (h1 : t < (n : ℤ)) :
    reflectIdx n t = t.toNat := by
  simp only [reflectIdx]
  rw [Int.emod_eq_of_lt h0 (by omega)]
  rw [if_pos h1]

theorem getD_ne_none (y : List (Option ℚ)) (hy : ∀ v ∈ y, v ≠ none)
    {m : ℕ} (hm : m < y.length) : y.getD m none ≠ none := by
  rw [List.getD_eq_getElem?_getD, List.getElem?_eq_getElem hm]
  exact hy _ (List.getElem_mem hm)

theorem nanmean_all_some2 (l : List (Option ℚ)) (h : ∀ v ∈ l, v ≠ none)
    (hne : l.length ≠ 0) :
    nanmean l = some ((l.filterMap id).sum / (l.length : ℚ)) := by
  simp only [nanmean]
  have hl : (l.filterMap id).length = l.length := by
    rw [filterMap_id_eq_map l h, List.length_map]
  rw [hl, if_neg hne]

theorem exactAt_interior (y : List (Option ℚ)) (b a : ℤ) (i : ℕ)
    (hy : ∀ v ∈ y, v ≠ none) (hb : 0 ≤ b) (ha : 0 ≤ a)
    (hib : b ≤ (i : ℤ)) (hia : (i : ℤ) + a + 1 ≤ (y.length : ℤ)) :
    exactAt y b a i
      = some ((((List.range (b + a + 1).toNat).map
            (fun k => y.getD (((i : ℤ) - b).toNat + k) none)).filterMap id).sum
          / (((b + a + 1).toNat : ℕ) : ℚ)) := by
  unfold exactAt
  have hmax : max ((i : ℤ) - b) 0 = (i : ℤ) - b := by omega
  have hmin : min ((i : ℤ) + a) (y.length : ℤ) + 1 = (i : ℤ) + a + 1 := by omega
  rw [hmax, hmin]
  rw [pySlice_eq_range y ((i : ℤ) - b) ((i : ℤ) + a + 1) none (by omega) (by omega) (by omega)]
  have hcnt : (min ((i : ℤ) + a + 1) (y.length : ℤ)).toNat - ((i : ℤ) - b).toNat
      = (b + a + 1).toNat := by omega
  rw [hcnt]
  have hmem : ∀ v ∈ (List.range (b + a + 1).toNat).map
      (fun k => y.getD (((i : ℤ) - b).toNat + k) none), v ≠ none := by
    intro v hv
    rcases List.mem_map.mp hv with ⟨k, hk, rfl⟩
    have hkr : k < (b + a + 1).toNat := List.mem_range.mp hk
    exact getD_ne_none y hy (by omega)
  rw [nanmean_all_some2 _ hmem (by simp; omega)]
  simp

theorem uniform_interior_eq_exact (y : List (Option ℚ)) (b a : ℤ) (i j : ℕ)
    (hy : ∀ v ∈ y, v ≠ none) (hb : 0 ≤ b) (ha : 0 ≤ a)
    (hj : (j : ℤ) = (i : ℤ) + (a - b + 1).fdiv 2)
    (hib : b + (((a - b + 1).fdiv 2).natAbs : ℤ) ≤ (i : ℤ))
    (hia : (i : ℤ) + a + (((a - b + 1).fdiv 2).natAbs : ℤ) + 1 ≤ (y.length : ℤ)) :
    (uniform_filter1d y (b + a + 1)).getD j none = exactAt y b a i := by
  have hS : (a - b + 1).fdiv 2 = (a - b + 1) / 2 := Int.fdiv_eq_ediv _ (by norm_num)
  have hC : (b + a + 1).fdiv 2 = (b + a + 1) / 2 := Int.fdiv_eq_ediv _ (by norm_num)
  have hjn : j < y.length := by omega
  have hshiftC : (b + a + 1).fdiv 2 = (a - b + 1).fdiv 2 + b := by omega
  unfold uniform_filter1d
  rw [getD_range_map _ _ hjn]
  have hwin : (List.range (b + a + 1).toNat).map
        (fun (k : ℕ) => y.getD (reflectIdx y.length ((j : ℤ) - (b + a + 1).fdiv 2 + (k : ℤ))) none)
      = (List.range (b + a + 1).toNat).map
        (fun (k : ℕ) => y.getD (((i : ℤ) - b).toNat + k) none) := by
    apply List.map_congr_left
    intro k hk
    have hkr : k < (b + a + 1).toNat := List.mem_range.mp hk
    have hidx : (j : ℤ) - (b + a + 1).fdiv 2 + (k : ℤ) = (i : ℤ) - b + (k : ℤ) := by omega
    rw [hidx]
    rw [reflectIdx_of_mem y.length ((i : ℤ) - b + (k : ℤ)) (by omega) (by omega)]
    congr 1
    omega
  simp only [hwin]
  have hall : ((List.range (b + a + 1).toNat).map
      (fun k => y.getD (((i : ℤ) - b).toNat + k) none)).all Option.isSome = true := by
    rw [List.all_eq_true]
    intro v hv
    rcases List.mem_map.mp hv with ⟨k, hkk, rfl⟩
    have hkr : k < (b + a + 1).toNat := List.mem_range.mp hkk
    exact Option.isSome_iff_ne_none.mpr (getD_ne_none y hy (by omega))
  rw [if_pos hall]
  rw [exactAt_interior y b a i hy hb ha (by omega) (by omega)]

theorem loop_eq_no_nan (y : List (Option ℚ)) (b a : ℤ)
    (hy : ∀ v ∈ y, v ≠ none) (hb : 0 ≤ b) (ha : 0 ≤ a) :
    mov_avg_loop y b a = mov_avg_no_nan y b a := by
  have hsa : (if a = -1 then b else a) = a := if_neg (by omega)
  simp only [mov_avg_loop, mov_avg_no_nan, hsa]
  apply List.map_congr_left
  intro i hi
  have hin : i < y.length := List.mem_range.mp hi
  have hS : (a - b + 1).fdiv 2 = (a - b + 1) / 2 := Int.fdiv_eq_ediv _ (by norm_num)
  split
  · rfl
  next hcond =>
    push_neg at hcond
    obtain ⟨h1, h2⟩ := hcond
    have hlo : b + (((a - b + 1).fdiv 2).natAbs : ℤ) ≤ (i : ℤ) := by omega
    have hhi : (i : ℤ) + a + (((a - b + 1).fdiv 2).natAbs : ℤ) + 1 ≤ (y.length : ℤ) := by
      omega
    rcases lt_trichotomy ((a - b + 1).fdiv 2) 0 with hlt | heq | hgt
    · rw [if_neg (show ¬(0 < (a - b + 1).fdiv 2) by omega), if_pos hlt,
        if_neg (show ¬(i < ((a - b + 1).fdiv 2).natAbs) by omega)]
      exact (uniform_interior_eq_exact y b a i (i - ((a - b + 1).fdiv 2).natAbs)
        hy hb ha (by omega) hlo hhi).symm
    · rw [if_neg (show ¬(0 < (a - b + 1).fdiv 2) by omega),
        if_neg (show ¬((a - b + 1).fdiv 2 < 0) by omega)]
      exact (uniform_interior_eq_exact y b a i i hy hb ha (by omega) hlo hhi).symm
    · rw [if_pos hgt, if_pos (show (i : ℤ) < (y.length : ℤ) - (a - b + 1).fdiv 2 by omega)]
      exact (uniform_interior_eq_exact y b a i (i + ((a - b + 1).fdiv 2).toNat)
        hy hb ha (by omega) hlo hhi).symm

/-- Claim C2: for every series without missing values and every resolved window
`(b, a)` with `b ≥ 0` and `a ≥ 0`, the exact path `mov_avg_loop` and the fast
path `mov_avg_no_nan` agree at every index, boundary indices included (exact
equality over ℚ, which models agreement up to floating-point tolerance). -/
theorem c2_path_equivalence (y : List (Option ℚ)) (b a : ℤ)
    (hy : ∀ v ∈ y, v ≠ none) (hb : 0 ≤ b) (ha : 0 ≤ a) :
    mov_avg_loop y b a = mov_avg_no_nan y b a :=
  loop_eq_no_nan y b a hy hb ha

/-- Witness for C2 at `y = [1, 2, 3, 4]`, `b = 0`, `a = 1`. -/
theorem c2_path_equivalence_witness :
    mov_avg_loop [some 1, some 2, some 3, some 4] 0 1
      = mov_avg_no_nan [some 1, some 2, some 3, some 4] 0 1 :=
  c2_path_equivalence [some 1, some 2, some 3, some 4] 0 1 (by decide) (by decide) (by decide)

/-- Claim C1, failing input: for `y = [1, 2, 3]` (no missing values),
`before = 1`, `after = 0`, the dispatcher takes the exact path with
`samples_after` forced to the sentinel `-1` — it returns the symmetric-window
average `[3/2, 2, 5/2]` of `mov_avg_loop(y, 1, -1)` instead of the fast-path
result `mov_avg_no_nan(y, 1, 0) = [1, 3/2, 5/2]` that the claim (and the
function's own docstring) promises for a NaN-free input. -/
theorem c1_dispatcher_code_eval :
    mov_avg [some 1, some 2, some 3] 1 0 = mov_avg_loop [some 1, some 2, some 3] 1 (-1) ∧
    mov_avg [some 1, some 2, some 3] 1 0 = [some (3/2), some 2, some (5/2)] ∧
    mov_avg_no_nan [some 1, some 2, some 3] 1 0 = [some 1, some (3/2), some (5/2)] ∧
    mov_avg [some 1, some 2, some 3] 1 0 ≠ mov_avg_no_nan [some 1, some 2, some 3] 1 0 := by
  have h1 : mov_avg [some 1, some 2, some 3] 1 0
      = mov_avg_loop [some 1, some 2, some 3] 1 (-1) := rfl
  have h2 : mov_avg_loop [some 1, some 2, some 3] 1 (-1)
      = [some (3/2), some 2, some (5/2)] := by
    norm_num [mov_avg_loop, exactAt, nanmean, pySlice, List.range_succ, List.filterMap_cons,
      show Int.toNat 2 = 2 from rfl, show Int.toNat 3 = 3 from rfl]
  have h3 : mov_avg_no_nan [some 1, some 2, some 3] 1 0
      = [some 1, some (3/2), some (5/2)] := by
    rw [← loop_eq_no_nan [some 1, some 2, some 3] 1 0 (by decide) (by norm_num) (by norm_num)]
    norm_num [mov_avg_loop, exactAt, nanmean, pySlice, List.range_succ, List.filterMap_cons,
      show Int.toNat 1 = 1 from rfl, show Int.toNat 2 = 2 from rfl,
      show Int.toNat 3 = 3 from rfl]
  refine ⟨h1, h1.trans h2, h3, ?_⟩
  rw [h1, h2, h3]
  intro hcontra
  norm_num at hcontra

theorem time_trunc_neg_one (y : List (Option ℚ)) (freq tb : ℚ)
    (h : pyInt (tb * freq) = -1) :
    mov_avg_time y freq tb (-1) = y.map (fun _ => none) := by
  simp only [mov_avg_time, h, if_pos rfl]
  show mov_avg_loop y (-1) (-1) = _
  simp only [mov_avg_loop, if_pos rfl]
  apply List.ext_getElem
  · simp
  intro i h1 h2
  simp only [List.getElem_map, List.getElem_range]
  have hin : i < y.length := by simpa using h2
  show exactAt y (-1) (-1) i = none
  unfold exactAt
  have hmax : max ((i : ℤ) - (-1)) 0 = (i : ℤ) + 1 := by omega
  have hmin : min ((i : ℤ) + (-1)) (y.length : ℤ) + 1 = (i : ℤ) := by omega
  rw [hmax, hmin]
  rw [pySlice_eq_range y ((i : ℤ) + 1) (i : ℤ) none (by omega) (by omega) (by omega)]
  have hcnt : (min (i : ℤ) (y.length : ℤ)).toNat - ((i : ℤ) + 1).toNat = 0 := by omega
  rw [hcnt]
  rfl

/-- Claim C8, failing input: `mov_avg_time` with `freq = -1 ≤ 0` (and
`time_before = 1 ≥ 0`) raises nothing — it returns a normal full-length result
(all-missing, because the truncated window count is `-1`), so no
`InvalidArgument` failure occurs. -/
theorem c8_adapter_no_validation_cex :
    mov_avg_time [some 1, some 2, some 3] (-1) 1 (-1) = [none, none, none] := by
  have hpy : pyInt ((1 : ℚ) * (-1)) = -1 := by
    have hm : (1 : ℚ) * (-1) = -1 := by norm_num
    rw [hm]; exact rfl
  rw [time_trunc_neg_one [some 1, some 2, some 3] (-1) 1 hpy]
  rfl

/-- Claim C8 as amended: `mov_avg_time` performs no argument validation and
never fails; it truncates `time_before * freq` toward zero and delegates.
Whenever that truncation gives `-1` (e.g. any `freq < 0` with
`-2 < time_before * freq ≤ -1`), the call still returns a full-length output
whose every entry is missing. -/
theorem c8_adapter_amended (y : List (Option ℚ)) (freq tb : ℚ)
    (h : pyInt (tb * freq) = -1) :
    mov_avg_time y freq tb (-1) = y.map (fun _ => none) :=
  time_trunc_neg_one y freq tb h

/-- Witness for C8 as amended at `y = [2]`, `freq = -1`, `time_before = 1`. -/
theorem c8_adapter_amended_witness :
    pyInt ((1 : ℚ) * (-1)) = -1 ∧ mov_avg_time [some 2] (-1) 1 (-1) = [none] := by
  have hpy : pyInt ((1 : ℚ) * (-1)) = -1 := by
    have hm : (1 : ℚ) * (-1) = -1 := by norm_num
    rw [hm]; exact rfl
  exact ⟨hpy, (c8_adapter_amended [some 2] (-1) 1 hpy).trans rfl⟩

/-- Claim C10: on an empty series or an empty batch,
`mov_avg_time_variable_freq` fails with an `IndexError` (the shape dispatch
`containsScalars` reads the first element unconditionally) before producing any
output, for every timestamp axis and every time window. -/
theorem c10_empty_input_indexing_error (x : List ℚ) (tb ta : ℚ) :
    mov_avg_time_variable_freq x (.single []) tb ta = .error "IndexError" ∧
    mov_avg_time_variable_freq x (.batch []) tb ta = .error "IndexError" :=
  ⟨rfl, rfl⟩

/-- Definition written from the specification's words for the exact windowed
mean (§4.2): at index `i` the arithmetic mean of the non-missing values of `y`
over the index set `max(i-b, 0) .. min(i+a, n-1)` inclusive, missing when every
sample in that range is missing. -/
def specWindowMean (y : List (Option ℚ)) (b a : ℤ) (i : ℕ) : Option ℚ :=
  let n := y.length
  let idxs := (List.range n).filter (fun (j : ℕ) =>
    decide (max ((i : ℤ) - b) 0 ≤ (j : ℤ)) && decide ((j : ℤ) ≤ min ((i : ℤ) + a) ((n : ℤ) - 1)))
  let vals := (idxs.map (fun j => y.getD j none)).filterMap id
  if vals.length = 0 then none else some (vals.sum / (vals.length : ℚ))

theorem filter_range_int_interval (n : ℕ) (lo hi : ℤ) (hlo : 0 ≤ lo) :
    (List.range n).filter (fun (j : ℕ) => decide (lo ≤ (j : ℤ)) && decide ((j : ℤ) ≤ hi))
      = (List.range ((min (hi + 1) (n : ℤ)).toNat - lo.toNat)).map (fun k => lo.toNat + k) := by
  induction n with
  | zero =>
    have hc : (min (hi + 1) ((0 : ℕ) : ℤ)).toNat - lo.toNat = 0 := by omega
    simp [hc]
  | succ m ih =>
    rw [List.range_succ, List.filter_append, ih]
    by_cases hm : lo ≤ (m : ℤ) ∧ (m : ℤ) ≤ hi
    · have hp : (decide (lo ≤ ((m : ℕ) : ℤ)) && decide (((m : ℕ) : ℤ) ≤ hi)) = true := by
        simp [hm.1, hm.2]
      have hcnt : (min (hi + 1) (((m + 1 : ℕ)) : ℤ)).toNat - lo.toNat
          = ((min (hi + 1) ((m : ℕ) : ℤ)).toNat - lo.toNat) + 1 := by
        push_cast
        omega
      have hfil : List.filter (fun (j : ℕ) => decide (lo ≤ (j : ℤ)) && decide ((j : ℤ) ≤ hi)) [m]
          = [m] := by
        simp [List.filter_cons, hp]
      have hlast : lo.toNat + ((min (hi + 1) ((m : ℕ) : ℤ)).toNat - lo.toNat) = m := by omega
      rw [hcnt, List.range_succ, List.map_append, hfil]
      simp only [List.map_cons, List.map_nil, hlast]
    · have hp : (decide (lo ≤ ((m : ℕ) : ℤ)) && decide (((m : ℕ) : ℤ) ≤ hi)) = false := by
        rcases not_and_or.mp hm with h | h <;> simp [h]
      have hcnt : (min (hi + 1) (((m + 1 : ℕ)) : ℤ)).toNat - lo.toNat
          = (min (hi + 1) ((m : ℕ) : ℤ)).toNat - lo.toNat := by
        push_cast
        omega
      rw [hcnt]
      simp [List.filter_cons, hp]

/-- Claim C3: at every index `i`, the exact path computes exactly the
specification's clipped-window nanmean (the python slice with end bound
`min(i+a, n) + 1` realizes the spec's inclusive range
`max(i-b, 0) .. min(i+a, n-1)`). -/
theorem c3_exact_window_mean (y : List (Option ℚ)) (b a : ℤ)
    (hb : 0 ≤ b) (ha : 0 ≤ a) (i : ℕ) (hi : i < y.length) :
    (mov_avg_loop y b a).getD i none = specWindowMean y b a i := by
  simp only [mov_avg_loop, if_neg (show ¬(a = -1) by omega)]
  rw [getD_range_map _ _ hi]
  simp only [exactAt, specWindowMean]
  rw [pySlice_eq_range y _ _ none (by omega) (by omega) (by omega)]
  rw [filter_range_int_interval y.length (max ((i : ℤ) - b) 0)
    (min ((i : ℤ) + a) ((y.length : ℤ) - 1)) (by omega)]
  rw [List.map_map]
  have hcnt : (min (min ((i : ℤ) + a) (y.length : ℤ) + 1) (y.length : ℤ)).toNat
        - (max ((i : ℤ) - b) 0).toNat
      = (min (min ((i : ℤ) + a) ((y.length : ℤ) - 1) + 1) (y.length : ℤ)).toNat
        - (max ((i : ℤ) - b) 0).toNat := by omega
  rw [hcnt]
  rfl

/-- Witness for C3 at the spec's missing-value scenario `y = [1, NaN, 3]`,
window `(1, 1)`, index `1`, together with the full output `[1, 2, 3]`. -/
theorem c3_exact_window_mean_witness :
    (0 : ℤ) ≤ 1 ∧ 1 < [some (1 : ℚ), none, some 3].length ∧
    (mov_avg_loop [some (1 : ℚ), none, some 3] 1 1).getD 1 none
      = specWindowMean [some (1 : ℚ), none, some 3] 1 1 1 ∧
    mov_avg_loop [some (1 : ℚ), none, some 3] 1 1 = [some 1, some 2, some 3] := by
  refine ⟨by norm_num, by norm_num,
    c3_exact_window_mean [some 1, none, some 3] 1 1 (by norm_num) (by norm_num) 1 (by norm_num),
    ?_⟩
  norm_num [mov_avg_loop, exactAt, nanmean, pySlice, List.range_succ, List.filterMap_cons,
    show Int.toNat 2 = 2 from rfl, show Int.toNat 3 = 3 from rfl]

/-- Definition written from the specification's words for the variable-rate
engine (§4.6): at index `i`, with `t = x[i]`, the per-series mean over the
index set of all `j` with `t - tb ≤ x[j] ≤ t + ta` (inclusive on both ends,
a predicate purely on timestamp value), excluding missing samples, missing when
no non-missing sample is in the set. -/
def specVarRateMean (x : List ℚ) (ys : List (Option ℚ)) (tb ta : ℚ) (i : ℕ) : Option ℚ :=
  let t := x.getD i 0
  let sel := (List.range x.length).filter (fun (j : ℕ) =>
    decide (t - tb ≤ x.getD j 0) && decide (x.getD j 0 ≤ t + ta))
  let vals := (sel.map (fun j => ys.getD j none)).filterMap id
  if vals.length = 0 then none else some (vals.sum / (vals.length : ℚ))

theorem timeWindowIdxs_eq_spec (x : List ℚ) (tb ta : ℚ) (i : ℕ) :
    timeWindowIdxs x tb ta i
      = (List.range x.length).filter (fun (j : ℕ) =>
          decide (x.getD i 0 - tb ≤ x.getD j 0) && decide (x.getD j 0 ≤ x.getD i 0 + ta)) := by
  simp only [timeWindowIdxs]
  apply List.filter_congr
  intro j hj
  simp only [← decide_not, not_lt]

theorem c4_batch_ok (x : List ℚ) (yss : List (List (Option ℚ))) (tb ta : ℚ)
    (hne : yss ≠ []) (hlen : ∀ ys ∈ yss, ys.length = x.length) :
    mov_avg_time_variable_freq x (.batch yss) tb ta
      = .ok (.arr2 (tvfFilt x yss tb (if ta = -1 then tb else ta))) := by
  obtain ⟨y0, rest, rfl⟩ : ∃ y0 rest, yss = y0 :: rest := by
    cases yss with
    | nil => exact absurd rfl hne
    | cons y0 rest => exact ⟨y0, rest, rfl⟩
  show (if (y0 :: rest).all (fun ys => ys.length == ((y0 :: rest).headD []).length) then _
    else Except.error "ValueError") = _
  have hall : ((y0 :: rest).all fun ys => ys.length == ((y0 :: rest).headD []).length) = true := by
    rw [List.all_eq_true]
    intro ys hys
    simp only [List.headD_cons, beq_iff_eq]
    rw [hlen ys hys, hlen y0 (List.mem_cons_self y0 rest)]
  rw [if_pos hall]
  have hg : ¬(((y0 :: rest).headD []).length < x.length) := by
    simp only [List.headD_cons]
    rw [hlen y0 (List.mem_cons_self y0 rest)]
    omega
  rw [if_neg hg]
  rfl

/-- Claim C4: for every timestamp axis, every nonempty batch of series of the
axis's length and non-negative durations, the variable-rate engine returns the
batch of per-index means over the inclusive timestamp windows described by the
specification, per series, with missing samples excluded. -/
theorem c4_variable_rate_semantics (x : List ℚ) (yss : List (List (Option ℚ))) (tb ta : ℚ)
    (hne : yss ≠ []) (hlen : ∀ ys ∈ yss, ys.length = x.length)
    (htb : 0 ≤ tb) (hta : 0 ≤ ta) :
    mov_avg_time_variable_freq x (.batch yss) tb ta
      = .ok (.arr2 (yss.map (fun ys =>
          (List.range x.length).map (specVarRateMean x ys tb ta)))) := by
  rw [c4_batch_ok x yss tb ta hne hlen,
    show (if ta = -1 then tb else ta) = ta from if_neg (by intro h; rw [h] at hta; norm_num at hta)]
  congr 2
  simp only [tvfFilt]
  apply List.map_congr_left
  intro ys hys
  rw [hlen ys hys]
  apply List.map_congr_left
  intro i hi
  have hix : i < x.length := List.mem_range.mp hi
  rw [if_pos hix, timeWindowIdxs_eq_spec]
  rfl

/-- Witness for C4 at the spec scenario `x = [0, 1, 2, 10, 11]`,
`y = [1, 2, 3, 4, 5]`, window `(1, 1)`: index 3 gets `mean(4, 5) = 9/2` and
index 0 gets `mean(1, 2) = 3/2`. -/
theorem c4_variable_rate_semantics_witness :
    mov_avg_time_variable_freq [0, 1, 2, 10, 11]
        (.batch [[some 1, some 2, some 3, some 4, some 5]]) 1 1
      = .ok (.arr2 [[some (3/2), some 2, some (5/2), some (9/2), some (9/2)]]) := by
  rw [c4_variable_rate_semantics [0, 1, 2, 10, 11] [[some 1, some 2, some 3, some 4, some 5]]
    1 1 (by simp) (by simp) (by norm_num) (by norm_num)]
  norm_num [specVarRateMean, List.range_succ, List.filter_cons, List.filterMap_cons, nanmean]
  exact ⟨fun h => absurd h (List.cons_ne_nil _ _), fun h => absurd h (List.cons_ne_nil _ _),
    fun h => absurd h (List.cons_ne_nil _ _), fun h => absurd h (List.cons_ne_nil _ _)⟩

theorem squeeze1_of_len_ne_one (l : List (Option ℚ)) (h : l.length ≠ 1) :
    squeeze1 l = .arr1 l := by
  cases l with
  | nil => rfl
  | cons r0 tl =>
    cases tl with
    | nil => simp at h
    | cons r1 tl2 => rfl

theorem tvfFilt_length (x : List ℚ) (yss : List (List (Option ℚ))) (tb ta : ℚ) :
    (tvfFilt x yss tb ta).length = yss.length := by
  simp [tvfFilt]

theorem tvfFilt_rows (x : List ℚ) (yss : List (List (Option ℚ))) (tb ta : ℚ)
    (hlen : ∀ ys ∈ yss, ys.length = x.length) :
    ∀ r ∈ tvfFilt x yss tb ta, r.length = x.length := by
  intro r hr
  simp only [tvfFilt, List.mem_map] at hr
  obtain ⟨ys, hys, rfl⟩ := hr
  simp [hlen ys hys]

theorem tvfFilt_single_head_len (x : List ℚ) (ys : List (Option ℚ)) (tb ta : ℚ) :
    ((tvfFilt x [ys] tb ta).headD []).length = ys.length := by
  simp [tvfFilt]

theorem tvf_single_ok (x : List ℚ) (ys : List (Option ℚ)) (tb ta : ℚ)
    (hne : ys ≠ []) (hlen : ¬(ys.length < x.length)) :
    mov_avg_time_variable_freq x (.single ys) tb ta
      = .ok (squeeze1 ((tvfFilt x [ys] tb (if ta = -1 then tb else ta)).headD [])) := by
  obtain ⟨a, tail, rfl⟩ : ∃ a tail, ys = a :: tail := by
    cases ys with
    | nil => exact absurd rfl hne
    | cons a tail => exact ⟨a, tail, rfl⟩
  show (if ([a :: tail] : List (List (Option ℚ))).all
      (fun l => l.length == (([a :: tail] : List (List (Option ℚ))).headD []).length) then _
    else Except.error "ValueError") = _
  rw [if_pos (by simp)]
  rw [if_neg (show ¬((([a :: tail] : List (List (Option ℚ))).headD []).length < x.length) from by
    simpa using hlen)]
  rfl

/-- Claim C6, failing input: passing the single series `[5]` of length 1 (with
`x = [0]`, window `(1, 1)`) to the variable-rate engine returns a rank-0
scalar, because `np.squeeze` collapses the `(1, 1)` result entirely; the
output has no length at all (python `len()` raises `TypeError` on it), so it
does not equal the input length 1. -/
theorem c6_length_preservation_cex :
    mov_avg_time_variable_freq [0] (.single [some 5]) 1 1 = .ok (.scalar (some 5)) ∧
    pyOutLen (.scalar (some 5)) = .error "TypeError" ∧
    [some (5 : ℚ)].length = 1 := by
  refine ⟨?_, rfl, rfl⟩
  norm_num [mov_avg_time_variable_freq, containsScalars, tvfFilt, timeWindowIdxs, nanmean,
    squeeze1, List.range_succ, List.filter_cons, List.filterMap_cons]

/-- Claim C6 as amended: output length equals input length for `mov_avg`,
`mov_avg_loop`, `mov_avg_no_nan` (valid windows) and `mov_avg_time`; the
variable-rate engine preserves the batch shape for nonempty rectangular
batches, and preserves the length of a single input series whenever that
length is at least 2 — the single-series length-1 case is the `np.squeeze`
exception recorded in the counterexample. -/
theorem c6_length_preservation_amended :
    (∀ (y : List (Option ℚ)) (sb sa : ℤ), (mov_avg y sb sa).length = y.length) ∧
    (∀ (y : List (Option ℚ)) (sb sa : ℤ), (mov_avg_loop y sb sa).length = y.length) ∧
    (∀ (y : List (Option ℚ)) (sb sa : ℤ), 0 ≤ sb → (0 ≤ sa ∨ sa = -1) →
      (mov_avg_no_nan y sb sa).length = y.length) ∧
    (∀ (y : List (Option ℚ)) (freq tb ta : ℚ), (mov_avg_time y freq tb ta).length = y.length) ∧
    (∀ (x : List ℚ) (yss : List (List (Option ℚ))) (tb ta : ℚ), yss ≠ [] →
      (∀ ys ∈ yss, ys.length = x.length) →
      ∃ out, mov_avg_time_variable_freq x (.batch yss) tb ta = .ok (.arr2 out) ∧
        out.length = yss.length ∧ ∀ r ∈ out, r.length = x.length) ∧
    (∀ (x : List ℚ) (ys : List (Option ℚ)) (tb ta : ℚ), ys.length = x.length →
      2 ≤ ys.length →
      ∃ out, mov_avg_time_variable_freq x (.single ys) tb ta = .ok (.arr1 out) ∧
        out.length = ys.length) := by
  refine ⟨?_, ?_, ?_, ?_, ?_, ?_⟩
  · intro y sb sa
    simp [mov_avg, isnanAnyUncalled, mov_avg_loop]
  · intro y sb sa
    simp [mov_avg_loop]
  · intro y sb sa hsb hsa
    simp [mov_avg_no_nan]
  · intro y freq tb ta
    simp [mov_avg_time, mov_avg, isnanAnyUncalled, mov_avg_loop]
  · intro x yss tb ta hne hlen
    exact ⟨tvfFilt x yss tb (if ta = -1 then tb else ta),
      c4_batch_ok x yss tb ta hne hlen, tvfFilt_length x yss tb _,
      tvfFilt_rows x yss tb _ hlen⟩
  · intro x ys tb ta hlen h2
    refine ⟨(tvfFilt x [ys] tb (if ta = -1 then tb else ta)).headD [], ?_,
      tvfFilt_single_head_len x ys tb _⟩
    rw [tvf_single_ok x ys tb ta (by intro h; rw [h] at h2; simp at h2) (by omega)]
    rw [squeeze1_of_len_ne_one _ (by rw [tvfFilt_single_head_len x ys tb _]; omega)]

/-- Witness for C6 as amended at small concrete inputs for each operation. -/
theorem c6_length_preservation_amended_witness :
    (mov_avg [some 1, none] 1 2).length = 2 ∧
    (mov_avg_loop [some 1, none] 1 2).length = 2 ∧
    (mov_avg_no_nan [some 1, some 2] 1 2).length = 2 ∧
    (mov_avg_time [some 1, none] 2 1 1).length = 2 ∧
    (∃ out, mov_avg_time_variable_freq [0, 1] (.batch [[some 1, none]]) 1 1
      = .ok (.arr2 out) ∧ out.length = 1 ∧ ∀ r ∈ out, r.length = 2) ∧
    (∃ out, mov_avg_time_variable_freq [0, 1] (.single [some 1, none]) 1 1
      = .ok (.arr1 out) ∧ out.length = 2) := by
  obtain ⟨h1, h2, h3, h4, h5, h6⟩ := c6_length_preservation_amended
  exact ⟨h1 [some 1, none] 1 2, h2 [some 1, none] 1 2,
    h3 [some 1, some 2] 1 2 (by norm_num) (Or.inl (by norm_num)),
    h4 [some 1, none] 2 1 1,
    h5 [0, 1] [[some 1, none]] 1 1 (by simp)
      (by intro ys hys; rw [List.mem_singleton] at hys; rw [hys]; rfl),
    h6 [0, 1] [some 1, none] 1 1 rfl (by norm_num)⟩

/-- Claim C7, failing input: the single series `[7]` of length 1 (with
`x = [3]`): the result is the rank-0 scalar `7`, not a single series — the
caller-visible output shape (rank 0) differs from the input shape (rank 1). -/
theorem c7_rank_preservation_cex :
    mov_avg_time_variable_freq [3] (.single [some 7]) 1 1 = .ok (.scalar (some 7)) ∧
    PyOut.scalar (some 7) ≠ PyOut.arr1 [some 7] := by
  refine ⟨?_, by simp⟩
  norm_num [mov_avg_time_variable_freq, containsScalars, tvfFilt, timeWindowIdxs, nanmean,
    squeeze1, List.range_succ, List.filter_cons, List.filterMap_cons]

/-- Claim C7 as amended: the variable-rate engine is rank-preserving except for
a single input series of length 1 (where `np.squeeze` collapses the result to
a rank-0 scalar): a single series of length at least 2 comes back as a rank-1
series, and a nonempty rectangular batch comes back as a rank-2 batch. -/
theorem c7_rank_preservation_amended :
    (∀ (x : List ℚ) (ys : List (Option ℚ)) (tb ta : ℚ), ys.length = x.length →
      2 ≤ ys.length →
      ∃ out, mov_avg_time_variable_freq x (.single ys) tb ta = .ok (.arr1 out)) ∧
    (∀ (x : List ℚ) (yss : List (List (Option ℚ))) (tb ta : ℚ), yss ≠ [] →
      (∀ ys ∈ yss, ys.length = x.length) →
      ∃ out, mov_avg_time_variable_freq x (.batch yss) tb ta = .ok (.arr2 out)) := by
  constructor
  · intro x ys tb ta hlen h2
    refine ⟨(tvfFilt x [ys] tb (if ta = -1 then tb else ta)).headD [], ?_⟩
    rw [tvf_single_ok x ys tb ta (by intro h; rw [h] at h2; simp at h2) (by omega)]
    rw [squeeze1_of_len_ne_one _ (by rw [tvfFilt_single_head_len x ys tb _]; omega)]
  · intro x yss tb ta hne hlen
    exact ⟨tvfFilt x yss tb (if ta = -1 then tb else ta), c4_batch_ok x yss tb ta hne hlen⟩

/-- Witness for C7 as amended: a length-2 single series comes back rank-1, a
one-series batch comes back rank-2. -/
theorem c7_rank_preservation_amended_witness :
    (∃ out, mov_avg_time_variable_freq [0, 5] (.single [some 3, some 4]) 2 2
      = .ok (.arr1 out)) ∧
    (∃ out, mov_avg_time_variable_freq [0, 5] (.batch [[some 3, some 4]]) 2 2
      = .ok (.arr2 out)) := by
  obtain ⟨h1, h2⟩ := c7_rank_preservation_amended
  exact ⟨h1 [0, 5] [some 3, some 4] 2 2 rfl (by norm_num),
    h2 [0, 5] [[some 3, some 4]] 2 2 (by simp)
      (by intro ys hys; rw [List.mem_singleton] at hys; rw [hys]; rfl)⟩

/-- Witness for C5 at `y = [1, NaN, 3]`: the window `(0, 0)` output is the
input itself, the missing value passing through. -/
theorem c5_zero_window_identity_witness :
    mov_avg [some 1, none, some 3] 0 0 = [some 1, none, some 3] :=
  c5_zero_window_identity [some 1, none, some 3]

/-- Witness for C10 at `x = [0]`, window `(1, 1)`. -/
theorem c10_empty_input_indexing_error_witness :
    mov_avg_time_variable_freq [0] (.single []) 1 1 = .error "IndexError" ∧
    mov_avg_time_variable_freq [0] (.batch []) 1 1 = .error "IndexError" :=
  c10_empty_input_indexing_error [0] 1 1
